import Mathlib

/-!
Verification of the microtune real-time pitch-estimation core.

This file contains a shallow embedding of the parts of the repository
relevant to the frozen claims:

* `CircularBuffer` — `src/microtune/circular_buffer.py`: the fixed-capacity
  ring buffer with cached reads.  The numpy array is modelled as a `List α`
  of fixed length; slice assignment becomes `setSlice`.
* `Clock` — `src/microtune/timing.py`: the READY/RUNNING/STOPPED state
  machine.  The external time source `fn()` is modelled by passing the
  current time as an argument; operations that raise `RuntimeError` return
  `Except.error`.
* `Scale.from_dict` — `src/microtune/scales.py`: validation of a scale
  definition.  The degree-indexed dictionaries are modelled as lists.
* `IntonationEstimator.process` — `src/microtune/estimators.py`: note
  matching with octave wraparound, history reset and smoothing.  The
  floating-point quantity `dist_from_tn + tn_cents` (computed with
  `np.log2`) is passed in as a rational argument; the `np.mod(·, 1200)`
  step is modelled exactly by `wrap1200`.
* `PitchEstimator.select_lag_0` / `find_minima` / `onset` / `offset` —
  `src/microtune/estimators.py`: the onset/offset tracking state machine.
  The raw local-minima indices produced by `scipy.signal.find_peaks`
  (an external library) are passed in as a list `peaks`; the repository's
  own filtering (lag-range cutoff and height threshold) is modelled in
  `find_minima`.  The floating-point test
  `|log2(ix_best/ix_ref) - round(...)| < integer_thresh` with
  `integer_thresh = 0.1` is rendered in exact arithmetic by `isHarmonic`:
  the condition holds iff `2^(10k-1) < (b/r)^10 < 2^(10k+1)` for some
  integer `k`, and such a `k` necessarily satisfies `|k| ≤ b + r`, so the
  bounded search below is exhaustive.

Floats are modelled as exact rationals throughout.
-/

namespace Microtune

/-! ## CircularBuffer (`src/microtune/circular_buffer.py`) -/

/-- State of a `CircularBuffer`: the underlying fixed-length array `arr`
(numpy array of row type `α`), the write head, the full flag, the optional
fill value, and the cached read result (`None` when stale). -/
structure CircularBuffer (α : Type) where
  arr : List α
  head : Nat
  full : Bool
  fill : Option α
  cached : Option (List α)
deriving Repr, DecidableEq

/-- Numpy slice assignment `arr[i : i + blk.length] = blk`. -/
def setSlice {α : Type} (arr : List α) (i : Nat) (blk : List α) : List α :=
  arr.take i ++ blk ++ arr.drop (i + blk.length)

/-- `CircularBuffer.__init__`: the array starts as `np.zeros` when no fill
value is given and `np.full(_, fill_value)` otherwise; `zero` is the zero
element of the row type. -/
def CircularBuffer.mkBuf {α : Type} (cap : Nat) (fill : Option α) (zero : α) :
    CircularBuffer α :=
  { arr := List.replicate cap (fill.getD zero)
    head := 0
    full := false
    fill := fill
    cached := none }

/-- `CircularBuffer._write`: overwrite-with-tail when the chunk is at least
as long as the capacity, in-place copy when it fits before wrapping, and a
two-part wrap-around copy otherwise. -/
def CircularBuffer.writeRaw {α : Type} (cb : CircularBuffer α) (block : List α) :
    CircularBuffer α :=
  let blocklen := block.length
  let maxlen := cb.arr.length
  if maxlen ≤ blocklen then
    { cb with arr := block.drop (blocklen - maxlen), head := 0, full := true }
  else
    let free := maxlen - cb.head
    if blocklen ≤ free then
      let arr' := setSlice cb.arr cb.head block
      if cb.head + blocklen = maxlen then
        { cb with arr := arr', head := 0, full := true }
      else
        { cb with arr := arr', head := cb.head + blocklen }
    else
      let newHead := blocklen - free
      let arr' := setSlice (setSlice cb.arr cb.head (block.take free)) 0
        ((block.drop free).take newHead)
      { cb with arr := arr', head := newHead, full := true }

/-- `CircularBuffer.write`: `_write` followed by cache invalidation. -/
def CircularBuffer.write {α : Type} (cb : CircularBuffer α) (block : List α) :
    CircularBuffer α :=
  { cb.writeRaw block with cached := none }

/-- `CircularBuffer._read`: straight copy when full with `head = 0`,
`np.roll(arr, -head)` when full otherwise, the first `head` rows when
partially full without a fill value, and the whole padded array when a fill
value is configured. -/
def CircularBuffer.readRaw {α : Type} (cb : CircularBuffer α) : List α :=
  if cb.full then
    if cb.head = 0 then cb.arr
    else cb.arr.drop cb.head ++ cb.arr.take cb.head
  else
    match cb.fill with
    | none => cb.arr.take cb.head
    | some _ => cb.arr

/-- `CircularBuffer.read`: return the cached array if fresh, otherwise
compute `_read` and cache it.  Returns the value together with the
post-read state. -/
def CircularBuffer.read {α : Type} (cb : CircularBuffer α) :
    List α × CircularBuffer α :=
  match cb.cached with
  | some v => (v, cb)
  | none => (cb.readRaw, { cb with cached := some cb.readRaw })

/-- `CircularBuffer.clear`: reset the array to zeros (or the fill value),
reset the head and full flag, and drop the cache. -/
def CircularBuffer.clear {α : Type} (cb : CircularBuffer α) (zero : α) :
    CircularBuffer α :=
  { arr := List.replicate cb.arr.length (cb.fill.getD zero)
    head := 0
    full := false
    fill := cb.fill
    cached := none }

/-- `CircularBuffer.__len__`: full capacity when full or a fill value is
configured, otherwise the head. -/
def CircularBuffer.length {α : Type} (cb : CircularBuffer α) : Nat :=
  if cb.full ∨ cb.fill.isSome then cb.arr.length else cb.head

/-- A sequence of `write` calls. -/
def CircularBuffer.writeList {α : Type} (cb : CircularBuffer α)
    (bs : List (List α)) : CircularBuffer α :=
  bs.foldl CircularBuffer.write cb

/-! ## Clock (`src/microtune/timing.py`) -/

/-- The three clock states. -/
inductive ClockState where
  | READY
  | RUNNING
  | STOPPED
deriving Repr, DecidableEq

/-- Clock state: the state-machine state plus the recorded start and stop
timestamps. -/
structure Clock where
  state : ClockState
  t_start : Option ℚ
  t_stop : Option ℚ
deriving Repr, DecidableEq

/-- `Clock.start`: only legal from READY; records the start time, moves to
RUNNING and returns 0. -/
def Clock.start (c : Clock) (t : ℚ) : Except String (ℚ × Clock) :=
  if c.state ≠ ClockState.READY then
    Except.error "cannot start clock in this state"
  else
    Except.ok (0, { c with t_start := some t, state := ClockState.RUNNING })

/-- `Clock.stop`: only legal from RUNNING; records the stop time, moves to
STOPPED and returns the elapsed time. -/
def Clock.stop (c : Clock) (t : ℚ) : Except String (ℚ × Clock) :=
  if c.state ≠ ClockState.RUNNING then
    Except.error "cannot stop clock in this state"
  else
    Except.ok (t - c.t_start.getD 0, { c with t_stop := some t, state := ClockState.STOPPED })

/-- `Clock.__call__` (the elapsed-time accessor): only legal from RUNNING. -/
def Clock.call (c : Clock) (t : ℚ) : Except String ℚ :=
  if c.state ≠ ClockState.RUNNING then
    Except.error "cannot get time for clock in this state"
  else
    Except.ok (t - c.t_start.getD 0)

/-- `Clock.reset`: unconditionally return to READY with cleared timestamps,
then start the clock when the `start` flag is set (starting from READY never
fails). -/
def Clock.reset (_c : Clock) (startFlag : Bool) (t : ℚ) : Clock :=
  let c' : Clock := { state := ClockState.READY, t_start := none, t_stop := none }
  if startFlag then
    match c'.start t with
    | Except.ok p => p.2
    | Except.error _ => c'
  else c'

/-! ## Scale (`src/microtune/scales.py`) -/

/-- `default_note_names()`: the twelve chromatic names. -/
def defaultNoteNames : List String :=
  ["C", "C#/Db", "D", "D#/Eb", "E", "F", "F#/Gb", "G", "G#/Ab", "A", "A#/Bb", "B"]

/-- The dictionary argument of `Scale.from_dict`, with the degree-indexed
mappings `notes` and `note_names` modelled as degree-ordered lists
(`note_names` absent means the default chromatic names are used). -/
structure ScaleDict where
  name : String
  notes : List ℚ
  note_names : Option (List String)

/-- An in-memory scale: name, cents per degree, names per degree. -/
structure Scale where
  scale_name : String
  cents : List ℚ
  names : List String
deriving Repr, DecidableEq

/-- `np.all(np.ediff1d(cents) > 0)`: consecutive entries strictly increase. -/
def strictIncr : List ℚ → Bool
  | [] => true
  | [_] => true
  | a :: b :: t => decide (a < b) && strictIncr (b :: t)

/-- `Scale.from_dict`: read the cents and names, then run the validation
asserts in source order (`len(cents) == len(names)`, `cents[0] == 0`,
`ediff1d(cents) > 0`, `cents >= 0`, `cents < 1200`); an assert failure is
an error.  An empty `notes` mapping makes the `cents[0]` access itself
fail, which is likewise an error. -/
def Scale.from_dict (d : ScaleDict) : Except String Scale :=
  if d.notes.length = (d.note_names.getD defaultNoteNames).length then
    if d.notes.head? = some 0 then
      if strictIncr d.notes then
        if d.notes.all (fun c => 0 ≤ c) then
          if d.notes.all (fun c => c < 1200) then
            Except.ok { scale_name := d.name, cents := d.notes,
                        names := d.note_names.getD defaultNoteNames }
          else Except.error "cents must be below 1200"
        else Except.error "cents must be nonnegative"
      else Except.error "cents must be strictly increasing"
    else Except.error "degree 0 must be 0 cents"
  else Except.error "names array length must equal cents array length"

/-! ## IntonationEstimator (`src/microtune/estimators.py`) -/

/-- First element of `l` minimizing `f`, ties broken towards the earlier
element (the semantics of `np.argmin`); `dflt` for the empty list. -/
def firstMinByAux {α β : Type} [LinearOrder β] (f : α → β) : α → List α → α
  | best, [] => best
  | best, x :: t => if f x < f best then firstMinByAux f x t else firstMinByAux f best t

/-- First minimizer of `f` over `l` (`np.argmin`-style tie-breaking). -/
def firstMinBy {α β : Type} [LinearOrder β] (f : α → β) (dflt : α) : List α → α
  | [] => dflt
  | x :: t => firstMinByAux f x t

/-- `np.mod(x, 1200)` on exact rationals. -/
def wrap1200 (x : ℚ) : ℚ :=
  x - 1200 * ⌊x / 1200⌋

/-- Index of the first minimum of a list of values (`np.argmin`):
worker carrying the next index `i`, the best index `bi` and best value
`bv` seen so far. -/
def argminIdxAux : List ℚ → Nat → Nat → ℚ → Nat
  | [], _, bi, _ => bi
  | v :: t, i, bi, bv =>
    if v < bv then argminIdxAux t (i + 1) i v else argminIdxAux t (i + 1) bi bv

/-- Index of the first minimum of a list of values (`np.argmin`). -/
def argminIdx : List ℚ → Nat
  | [] => 0
  | v :: t => argminIdxAux t 1 0 v

/-- `np.argmin(np.abs(dist - cents))`: index of the scale degree whose cents
value is closest to `dist`, first occurrence winning. -/
def argminAbsDist (cents : List ℚ) (dist : ℚ) : Nat :=
  argminIdx (cents.map (fun c => |dist - c|))

/-- The note-matching step of `IntonationEstimator.process`: nearest degree
by cents distance, with the octave-wraparound special case that reassigns a
pitch nearer to 1200¢ than to the last degree's cents value to degree 0 with
error `dist - 1200`.  Returns the matched degree and the raw cents error. -/
def matchNote (cents : List ℚ) (dist : ℚ) : Nat × ℚ :=
  let note := argminAbsDist cents dist
  if note = cents.length - 1 ∧ |dist - 1200| < |dist - cents.getLastD 0| then
    (0, dist - 1200)
  else
    (note, dist - cents.getD note 0)

/-- `collections.deque(maxlen)` append: drop from the front once the length
bound is reached. -/
def dqAppend {α : Type} (maxlen : Nat) (xs : List α) (x : α) : List α :=
  let ys := xs ++ [x]
  ys.drop (ys.length - maxlen)

/-- Mutable state of an `IntonationEstimator`: current note, raw error and
smoothed error together with their bounded histories, and the deque bound
`histlen`. -/
structure IntonState where
  note : Int
  note_buf : List Int
  error : ℚ
  error_buf : List ℚ
  error_adj : ℚ
  error_adj_buf : List ℚ
  histlen : Nat
deriving Repr, DecidableEq

/-- The fields of a `Block` written by `IntonationEstimator.process`. -/
structure IntonBlockOut where
  note : Int
  error : ℚ
  error_adj : ℚ
deriving Repr, DecidableEq

/-- `IntonationEstimator.process`.  `tunable` is the incoming block's
tunability flag and `rawDist` the real-valued quantity
`1200*log2(block.pitch/tn_pitch) + tn_cents` computed by the caller (here
passed in exactly); the `np.mod(·, 1200)` reduction, nearest-note search,
wraparound, note-change history reset, and mean-based smoothing follow the
source.  Returns the updated estimator state and the block fields. -/
def IntonationEstimator.process (cents : List ℚ) (s : IntonState)
    (tunable : Bool) (rawDist : ℚ) : IntonState × IntonBlockOut :=
  if ¬ tunable then
    ({ s with note := -1, note_buf := [], error := 0, error_buf := [],
              error_adj := 0, error_adj_buf := [] },
     { note := -1, error := 0, error_adj := 0 })
  else
    let dist := wrap1200 rawDist
    let ne := matchNote cents dist
    let note : Int := ne.1
    let error : ℚ := ne.2
    let cleared := s.note_buf ≠ [] ∧ s.note_buf.getLast? ≠ some note
    let nb := if cleared then [] else s.note_buf
    let eb := if cleared then [] else s.error_buf
    let ab := if cleared then [] else s.error_adj_buf
    let nb' := dqAppend s.histlen nb note
    let eb' := dqAppend s.histlen eb error
    let error_adj := eb'.sum / eb'.length
    let ab' := dqAppend s.histlen ab error_adj
    ({ s with note := note, note_buf := nb', error := error, error_buf := eb',
              error_adj := error_adj, error_adj_buf := ab' },
     { note := note, error := error, error_adj := error_adj })

/-! ## PitchEstimator (`src/microtune/estimators.py`) -/

/-- User-tunable parameters of `PitchEstimator` relevant to lag selection:
thresholds and the `_cutoff` lag range derived from `fs`, `fmin`, `fmax`. -/
structure PEParams where
  min_thresh : ℚ
  abs_thresh : ℚ
  onset_thresh : ℚ
  offset_thresh_2 : ℚ
  lagmin : Nat
  lagmax : Nat
deriving Repr, DecidableEq

/-- The class-level defaults: `min_thresh = 0.3`, `abs_thresh = 0.1`,
`onset_thresh = 0.15`, `offset_thresh_2 = 0.45` (the further class constant
`integer_thresh = 0.1` is baked into `isHarmonic` below), with the cutoff
left at a representative audio setting. -/
def PEParams.default : PEParams :=
  { min_thresh := 3/10
    abs_thresh := 1/10
    onset_thresh := 15/100
    offset_thresh_2 := 45/100
    lagmin := 29
    lagmax := 735 }

/-- Onset-tracking state of a `PitchEstimator`: the onset flag, reference
lag, onset/offset timestamps, and the three bounded histories
(`ix_best`, `dn_score`, `pitch`). -/
structure PEState where
  onset_flag : Bool
  onset_ix : Nat
  onset_t : ℚ
  offset_t : ℚ
  hist_ix : List Nat
  hist_score : List ℚ
  hist_pitch : List ℚ
deriving Repr, DecidableEq

/-- The block fields read and written by `select_lag_0`. -/
structure PBlock where
  timestamp : ℚ
  tunable : Bool
  ix_best : Nat
deriving Repr, DecidableEq

/-- `PitchEstimator.onset`: declare an onset at reference lag `ix` and
time `t`. -/
def PEState.onset (s : PEState) (ix : Nat) (t : ℚ) : PEState :=
  { s with onset_flag := true, onset_ix := ix, onset_t := t, offset_t := 0 }

/-- `PitchEstimator.offset`: clear all histories and leave the onset-active
state, recording the offset time. -/
def PEState.offset (s : PEState) (t : ℚ) : PEState :=
  { s with hist_ix := [], hist_score := [], hist_pitch := [],
           onset_flag := false, onset_ix := 0, onset_t := 0, offset_t := t }

/-- `PitchEstimator.find_minima`: `peaks` is the raw output of
`scipy.signal.find_peaks(-dn, distance=5)` (external library); the
repository then keeps the peaks inside the `_cutoff` lag range and, when a
height is given, those with `dn[ix] ≤ height`. -/
def find_minima (p : PEParams) (dn : List ℚ) (peaks : List Nat)
    (height : Option ℚ) : List Nat :=
  let ixs := peaks.filter (fun ix => decide (p.lagmin ≤ ix) && decide (ix ≤ p.lagmax))
  match height with
  | none => ixs
  | some h => ixs.filter (fun ix => decide (dn.getD ix 0 ≤ h))

/-- Decides `2^e * R < B` for an integer exponent `e` and naturals `R`, `B`
using only natural-number arithmetic (clearing the denominator when `e` is
negative). -/
def pow2MulLt (e : ℤ) (R B : Nat) : Bool :=
  if 0 ≤ e then decide (2 ^ e.toNat * R < B) else decide (R < 2 ^ (-e).toNat * B)

/-- Exact-arithmetic rendering of the harmonic test
`np.abs(log_ratio - np.round(log_ratio)) < integer_thresh` for
`log_ratio = np.log2(ix_best / ix_ref)` and `integer_thresh = 0.1 = 1/10`:
the test holds iff `∃ k : ℤ, 2^(10k-1) < (b/r)^10 < 2^(10k+1)` (raise the
double inequality `k - 1/10 < log2(b/r) < k + 1/10` to the 10th power of 2).
Any such `k` satisfies `|k| ≤ |log2(b/r)| + 1 ≤ b + r`, so searching
`k ∈ [-(b+r), b+r]` is exhaustive; each side is decided over the naturals
`b^10`, `r^10` by `pow2MulLt`.  For `b = 0` or `r = 0` the floating-point
expression is NaN or infinite and the comparison is false. -/
def isHarmonic (b r : Nat) : Bool :=
  if b = 0 ∨ r = 0 then false
  else
    (List.range (2 * (b + r) + 1)).any fun j =>
      let k : ℤ := (j : ℤ) - (b + r)
      pow2MulLt (10 * k - 1) (r ^ 10) (b ^ 10) &&
        pow2MulLt (-(10 * k + 1)) (b ^ 10) (r ^ 10)

/-- The YIN choice inside the onset-active branch: the first candidate with
`dn` score strictly below `abs_thresh` when one exists, else the candidate
minimizing the `dn` score (`ixs[np.argmin(dn[ixs])]`). -/
def yinBest (p : PEParams) (dn : List ℚ) (ixs : List Nat) : Nat :=
  match ixs.filter (fun ix => decide (dn.getD ix 0 < p.abs_thresh)) with
  | ix :: _ => ix
  | [] => firstMinBy (fun ix => dn.getD ix 0) 0 ixs

/-- `ixs[np.argmin(np.abs(ix_ref - ixs))]`: the candidate nearest the
reference lag. -/
def nearRef (ref : Nat) (ixs : List Nat) : Nat :=
  firstMinBy (fun ix : Nat => ((ref : ℤ) - (ix : ℤ)).natAbs) 0 ixs

/-- `PitchEstimator.select_lag_0`.  `dn` is the normalized difference
function (indexed by lag), `peaks` the raw scipy local-minima indices, and
`b` the incoming block.  The two `if` statements of the source run in
sequence: the onset-active branch may call `offset`, after which the
`if not self.onset_flag` branch observes the updated flag within the same
call. -/
def select_lag_0 (p : PEParams) (s : PEState) (dn : List ℚ) (peaks : List Nat)
    (b : PBlock) : PEState × PBlock :=
  let ixs := find_minima p dn peaks (some p.min_thresh)
  if ixs = [] then
    if s.onset_flag then (s.offset b.timestamp, b) else (s, b)
  else
    let step1 : PEState × PBlock :=
      if s.onset_flag then
        let ix_best := yinBest p dn ixs
        let ix_ref := s.onset_ix
        if isHarmonic ix_best ix_ref then
          let ix_near_ref := nearRef ix_ref ixs
          if dn.getD ix_near_ref 0 < p.offset_thresh_2 then
            (s, { b with ix_best := ix_near_ref, tunable := true })
          else
            (s.offset b.timestamp, { b with ix_best := ix_best, tunable := true })
        else
          (s, { b with ix_best := ix_best, tunable := true })
      else
        (s, b)
    if step1.1.onset_flag then step1
    else
      let sub_ixs := ixs.filter (fun ix => decide (dn.getD ix 0 < p.onset_thresh))
      match sub_ixs with
      | [] => step1
      | ix :: _ =>
        (step1.1.onset ix b.timestamp, { step1.2 with ix_best := ix, tunable := true })

/-! ## Buffer invariant -/

/-- Relation between a `CircularBuffer` state and the concatenation `ws` of
every row written so far (with pad element `p`): the array length is the
capacity; when not yet full the head counts the rows written and the array
is the written rows followed by padding; when full, the array rotated left
by `head` is exactly the last `cap` rows written. -/
structure Models {α : Type} (cb : CircularBuffer α) (cap : Nat) (p : α)
    (ws : List α) : Prop where
  len_eq : cb.arr.length = cap
  head_le : cb.head ≤ cap
  full_lt : cb.full = true → cb.head < cap ∨ cap = 0
  part : cb.full = false →
    cb.head = ws.length ∧ cb.arr = ws ++ List.replicate (cap - ws.length) p ∧
    (cb.head < cap ∨ cb.head = 0)
  full_content : cb.full = true →
    cap ≤ ws.length ∧
    cb.arr.drop cb.head ++ cb.arr.take cb.head = ws.drop (ws.length - cap)

/-! # Theorems -/

/-! ## Clock: C2 and C7 -/

/-- Claim C2 counterexample: a STOPPED clock, after `reset()`, is READY
again, so the STOPPED state is not terminal under `reset`. -/
theorem clock_reset_leaves_stopped_counterexample :
    (Clock.reset ⟨ClockState.STOPPED, some 0, some 1⟩ false 0).state
      = ClockState.READY := by
  rfl

/-- Claim C2 (amended): once a clock is STOPPED, `start`, `stop` and the
elapsed-time accessor all fail with a state error (and hence never move the
clock to READY or RUNNING); only `reset` leaves the STOPPED state. -/
theorem clock_stopped_terminal_without_reset (c : Clock) (t : ℚ)
    (h : c.state = ClockState.STOPPED) :
    (∃ e, c.start t = Except.error e) ∧
    (∃ e, c.stop t = Except.error e) ∧
    (∃ e, c.call t = Except.error e) := by
  refine ⟨⟨"cannot start clock in this state", ?_⟩,
    ⟨"cannot stop clock in this state", ?_⟩,
    ⟨"cannot get time for clock in this state", ?_⟩⟩ <;>
    simp [Clock.start, Clock.stop, Clock.call, h]

/-- Witness for `clock_stopped_terminal_without_reset` at a concrete
stopped clock. -/
theorem clock_stopped_terminal_without_reset_witness :
    (∃ e, Clock.start ⟨ClockState.STOPPED, some 0, some 1⟩ 5 = Except.error e) ∧
    (∃ e, Clock.stop ⟨ClockState.STOPPED, some 0, some 1⟩ 5 = Except.error e) ∧
    (∃ e, Clock.call ⟨ClockState.STOPPED, some 0, some 1⟩ 5 = Except.error e) :=
  clock_stopped_terminal_without_reset ⟨ClockState.STOPPED, some 0, some 1⟩ 5 rfl

/-- Claim C7: clock operations fail exactly on out-of-sequence use — the
elapsed-time accessor and `stop` error iff the state is not RUNNING, and
`start` errors iff the state is not READY; in the permitted states they
succeed. -/
theorem clock_ops_fail_iff_out_of_sequence (c : Clock) (t : ℚ) :
    ((∃ e, c.call t = Except.error e) ↔ c.state ≠ ClockState.RUNNING) ∧
    ((∃ e, c.start t = Except.error e) ↔ c.state ≠ ClockState.READY) ∧
    ((∃ e, c.stop t = Except.error e) ↔ c.state ≠ ClockState.RUNNING) := by
  refine ⟨?_, ?_, ?_⟩
  · by_cases h : c.state = ClockState.RUNNING <;> simp [Clock.call, h]
  · by_cases h : c.state = ClockState.READY <;> simp [Clock.start, h]
  · by_cases h : c.state = ClockState.RUNNING <;> simp [Clock.stop, h]

/-! ## CircularBuffer: C5 and C8 -/

/-- Claim C5: `read` is idempotent between writes — a second `read` with no
intervening `write`/`clear` returns the identical value and leaves the
state unchanged; `read` always leaves the cache populated with the value it
returned, while `write` and `clear` reset the cache to `None`. -/
theorem circular_buffer_read_idempotent {α : Type} (cb : CircularBuffer α) :
    (cb.read.2.read.1 = cb.read.1 ∧ cb.read.2.read.2 = cb.read.2) ∧
    cb.read.2.cached = some cb.read.1 ∧
    (∀ blk, (cb.write blk).cached = none) ∧
    (∀ z, (cb.clear z).cached = none) := by
  cases h : cb.cached <;>
    simp [CircularBuffer.read, CircularBuffer.write, CircularBuffer.clear, h]

/-- Claim C8: with a fill value configured, reading a not-full buffer
returns the entire padded array, whose length is the full capacity, and the
reported length is the full capacity; concretely, a capacity-5 buffer with
fill value 0 reads `[0,1,2,0,0]` after writing `[0,1,2]`, reports length 5,
and reads `[2,3,4,5,6]` after a further write of `[3,4,5,6]`. -/
theorem circular_buffer_padded_read (cb : CircularBuffer ℤ)
    (hfill : cb.fill.isSome = true) (hfull : cb.full = false)
    (hc : cb.cached = none) :
    (cb.read.1 = cb.arr ∧ cb.read.1.length = cb.arr.length ∧
      cb.length = cb.arr.length) ∧
    ((CircularBuffer.mkBuf 5 (some (0:ℤ)) 0).write [0,1,2]).read.1
        = [0, 1, 2, 0, 0] ∧
    ((CircularBuffer.mkBuf 5 (some (0:ℤ)) 0).write [0,1,2]).length = 5 ∧
    (((CircularBuffer.mkBuf 5 (some (0:ℤ)) 0).write [0,1,2]).write
        [3,4,5,6]).read.1 = [2, 3, 4, 5, 6] := by
  refine ⟨⟨?_, ?_, ?_⟩, by decide, by decide, by decide⟩ <;>
  · cases hf : cb.fill with
    | none => rw [hf] at hfill; simp at hfill
    | some v =>
      simp [CircularBuffer.read, CircularBuffer.readRaw, CircularBuffer.length,
        hc, hfull, hf]

/-- Witness for `circular_buffer_padded_read` at the concrete partially
filled buffer from the spec example. -/
theorem circular_buffer_padded_read_witness :
    (((CircularBuffer.mkBuf 5 (some (0:ℤ)) 0).write [0,1,2]).read.1
        = ((CircularBuffer.mkBuf 5 (some (0:ℤ)) 0).write [0,1,2]).arr ∧
      ((CircularBuffer.mkBuf 5 (some (0:ℤ)) 0).write [0,1,2]).read.1.length
        = ((CircularBuffer.mkBuf 5 (some (0:ℤ)) 0).write [0,1,2]).arr.length ∧
      ((CircularBuffer.mkBuf 5 (some (0:ℤ)) 0).write [0,1,2]).length
        = ((CircularBuffer.mkBuf 5 (some (0:ℤ)) 0).write [0,1,2]).arr.length) ∧
    ((CircularBuffer.mkBuf 5 (some (0:ℤ)) 0).write [0,1,2]).read.1
        = [0, 1, 2, 0, 0] ∧
    ((CircularBuffer.mkBuf 5 (some (0:ℤ)) 0).write [0,1,2]).length = 5 ∧
    (((CircularBuffer.mkBuf 5 (some (0:ℤ)) 0).write [0,1,2]).write
        [3,4,5,6]).read.1 = [2, 3, 4, 5, 6] :=
  circular_buffer_padded_read ((CircularBuffer.mkBuf 5 (some (0:ℤ)) 0).write [0,1,2])
    (by decide) (by decide) (by decide)

/-! ## Scale: C6 -/

/-- The boolean `strictIncr` check is exactly strict pairwise-adjacent
increase. -/
theorem strictIncr_iff_chain' : ∀ l : List ℚ, strictIncr l = true ↔ List.Chain' (· < ·) l
  | [] => by simp [strictIncr]
  | [a] => by simp [strictIncr]
  | a :: b :: t => by
    rw [strictIncr, Bool.and_eq_true, decide_eq_true_eq, List.chain'_cons,
      strictIncr_iff_chain' (b :: t)]

/-- Claim C6: `Scale.from_dict` succeeds iff the input satisfies all four
validation conditions — degree 0 has cents exactly 0, the cents are
strictly increasing, every cents value lies in `[0, 1200)`, and the names
array (after defaulting) has the same length as the cents array; it fails
with a validation error exactly when one of them is violated. -/
theorem scale_from_dict_ok_iff_valid (d : ScaleDict) :
    (∃ s, Scale.from_dict d = Except.ok s) ↔
      (d.notes.head? = some 0 ∧ List.Chain' (· < ·) d.notes ∧
       (∀ c ∈ d.notes, 0 ≤ c ∧ c < 1200) ∧
       d.notes.length = (d.note_names.getD defaultNoteNames).length) := by
  constructor
  · rintro ⟨s, hs⟩
    unfold Scale.from_dict at hs
    split_ifs at hs with h1 h2 h3 h4 h5
    have h4' := List.all_eq_true.1 h4
    have h5' := List.all_eq_true.1 h5
    refine ⟨h2, (strictIncr_iff_chain' _).1 h3, ?_, h1⟩
    intro c hc
    exact ⟨by simpa using h4' c hc, by simpa using h5' c hc⟩
  · rintro ⟨h0, hchain, hrange, hlen⟩
    unfold Scale.from_dict
    rw [if_pos hlen, if_pos h0, if_pos ((strictIncr_iff_chain' _).2 hchain),
      if_pos (List.all_eq_true.2 fun c hc => by simpa using (hrange c hc).1),
      if_pos (List.all_eq_true.2 fun c hc => by simpa using (hrange c hc).2)]
    exact ⟨_, rfl⟩

/-! ## IntonationEstimator: C3 -/

/-- `np.mod(x, 1200)` is nonnegative. -/
theorem wrap1200_nonneg (x : ℚ) : 0 ≤ wrap1200 x := by
  have h : (⌊x / 1200⌋ : ℚ) * 1200 ≤ x :=
    (le_div_iff₀ (by norm_num : (0:ℚ) < 1200)).1 (Int.floor_le (x / 1200))
  unfold wrap1200
  linarith

/-- `np.mod(x, 1200)` is below 1200. -/
theorem wrap1200_lt (x : ℚ) : wrap1200 x < 1200 := by
  have h : x < ((⌊x / 1200⌋ : ℚ) + 1) * 1200 :=
    (div_lt_iff₀ (by norm_num : (0:ℚ) < 1200)).1 (Int.lt_floor_add_one (x / 1200))
  unfold wrap1200
  linarith

/-- In a strictly increasing list, every element is at most the last one. -/
theorem le_getLast?_of_chain' :
    ∀ (l : List ℚ), List.Chain' (· < ·) l →
      ∀ lst, l.getLast? = some lst → ∀ c ∈ l, c ≤ lst
  | [], _, lst, hl, c, hc => by simp at hc
  | [a], _, lst, hl, c, hc => by
    simp at hl hc
    simp [hc, hl]
  | a :: b :: t, h, lst, hl, c, hc => by
    rw [List.chain'_cons] at h
    rw [List.getLast?_cons_cons] at hl
    rcases List.mem_cons.1 hc with rfl | hc'
    · have hb : b ≤ lst := le_getLast?_of_chain' (b :: t) h.2 lst hl b (by simp)
      linarith [h.1]
    · exact le_getLast?_of_chain' (b :: t) h.2 lst hl c hc'

/-- On a strictly decreasing tail, the argmin worker lands on the final
index. -/
theorem argminIdxAux_chain :
    ∀ (t : List ℚ) (i bi : Nat) (bv : ℚ),
      List.Chain (fun x y => y < x) bv t →
      argminIdxAux t i bi bv = if t = [] then bi else i + t.length - 1
  | [], i, bi, bv, _ => by simp [argminIdxAux]
  | v :: t, i, bi, bv, h => by
    rw [List.chain_cons] at h
    simp only [argminIdxAux, if_pos h.1]
    rw [argminIdxAux_chain t (i + 1) i v h.2]
    cases t with
    | nil => simp
    | cons x t' =>
      simp only [List.length_cons, if_neg (List.cons_ne_nil x t'),
        if_neg (List.cons_ne_nil v (x :: t'))]
      omega

/-- Over a strictly decreasing list of values, `np.argmin` returns the last
index. -/
theorem argminIdx_chain (xs : List ℚ)
    (h : List.Chain' (fun x y => y < x) xs) :
    argminIdx xs = xs.length - 1 := by
  cases xs with
  | nil => simp [argminIdx]
  | cons v t =>
    have h' : List.Chain (fun x y => y < x) v t := h
    rw [argminIdx, argminIdxAux_chain t 1 0 v h']
    cases t with
    | nil => simp
    | cons x t' =>
      simp only [List.length_cons, if_neg (List.cons_ne_nil x t')]
      omega

/-- For a strictly increasing list of cents all below `dist`, the absolute
distances to `dist` strictly decrease along the list. -/
theorem chain'_absdist (dist : ℚ) :
    ∀ (l : List ℚ), List.Chain' (· < ·) l → (∀ c ∈ l, c < dist) →
      List.Chain' (fun x y : ℚ => y < x) (l.map (fun c => |dist - c|))
  | [], _, _ => by simp
  | [a], _, _ => by simp
  | a :: b :: t, h, hlt => by
    rw [List.chain'_cons] at h
    rw [List.map_cons, List.map_cons, List.chain'_cons]
    constructor
    · have ha : a < dist := hlt a (by simp)
      have hb : b < dist := hlt b (by simp)
      rw [abs_of_pos (by linarith), abs_of_pos (by linarith)]
      linarith [h.1]
    · have := chain'_absdist dist (b :: t) h.2
        (fun c hc => hlt c (List.mem_cons_of_mem a hc))
      simpa using this

/-- The note-matching step of `IntonationEstimator.process` under the
wraparound condition: when `dist` is strictly closer to 1200¢ than to the
last degree's cents value (and the scale is valid with its last degree
below 1200¢), the matched note is degree 0 with error `dist - 1200`. -/
theorem matchNote_wraparound (cents : List ℚ) (dist : ℚ)
    (hne : cents ≠ []) (hchain : List.Chain' (· < ·) cents)
    (hlast : cents.getLastD 0 < 1200) (hdist : dist < 1200)
    (hclose : |dist - 1200| < |dist - cents.getLastD 0|) :
    matchNote cents dist = (0, dist - 1200) := by
  have h1200 : |dist - 1200| = 1200 - dist := by
    rw [abs_of_nonpos (by linarith)]
    ring
  have hlast_lt : cents.getLastD 0 < dist := by
    by_contra hcon
    push_neg at hcon
    rw [h1200, abs_of_nonpos (by linarith)] at hclose
    have : (1200 : ℚ) < cents.getLastD 0 := by linarith
    linarith
  have hall : ∀ c ∈ cents, c < dist := by
    intro c hc
    obtain ⟨lst, hlst⟩ := List.getLast?_isSome.2 hne |> Option.isSome_iff_exists.1
    have hle := le_getLast?_of_chain' cents hchain lst hlst c hc
    have : cents.getLastD 0 = lst := by
      rw [List.getLastD_eq_getLast?, hlst]
      rfl
    rw [this] at hlast_lt
    linarith
  have hargmin : argminAbsDist cents dist = cents.length - 1 := by
    unfold argminAbsDist
    rw [argminIdx_chain _ (chain'_absdist dist cents hchain hall), List.length_map]
  unfold matchNote
  rw [hargmin, if_pos ⟨rfl, hclose⟩]

/-- Claim C3: for a tunable block and a valid scale whose last degree is
below 1200¢, when the computed `dist_from_tonic` is strictly closer to
1200¢ than to the last degree's cents value, `IntonationEstimator.process`
assigns matched note 0 with raw error `dist_from_tonic − 1200` — not the
last degree. -/
theorem intonation_wraparound_matches_degree_zero (cents : List ℚ)
    (s : IntonState) (rawDist : ℚ)
    (hne : cents ≠ []) (hchain : List.Chain' (· < ·) cents)
    (hlast : cents.getLastD 0 < 1200)
    (hclose : |wrap1200 rawDist - 1200| < |wrap1200 rawDist - cents.getLastD 0|) :
    (IntonationEstimator.process cents s true rawDist).2.note = 0 ∧
    (IntonationEstimator.process cents s true rawDist).2.error
      = wrap1200 rawDist - 1200 := by
  have hm := matchNote_wraparound cents (wrap1200 rawDist) hne hchain hlast
    (wrap1200_lt rawDist) hclose
  simp [IntonationEstimator.process, hm]

/-- Witness for `intonation_wraparound_matches_degree_zero`: the spec's
example, a scale with degrees at 0¢ and 1150¢ and a computed
`dist_from_tonic` of 1190¢, which matches degree 0 with error −10. -/
theorem intonation_wraparound_matches_degree_zero_witness :
    (IntonationEstimator.process [0, 1150]
        ⟨0, [], 0, [], 0, [], 20⟩ true 1190).2.note = 0 ∧
    (IntonationEstimator.process [0, 1150]
        ⟨0, [], 0, [], 0, [], 20⟩ true 1190).2.error = wrap1200 1190 - 1200 :=
  intonation_wraparound_matches_degree_zero [0, 1150] ⟨0, [], 0, [], 0, [], 20⟩ 1190
    (by simp) (by norm_num [List.chain'_cons]) (by norm_num)
    (by norm_num [wrap1200])

/-! ## IntonationEstimator: C9 -/

/-- A bounded-deque append with a positive bound is the dropped prefix
followed by the new element. -/
theorem dqAppend_eq {α : Type} (m : Nat) (xs : List α) (x : α) (hm : 1 ≤ m) :
    dqAppend m xs x = xs.drop (xs.length + 1 - m) ++ [x] := by
  unfold dqAppend
  rw [List.drop_append_eq_append_drop]
  have h1 : (xs ++ [x]).length - m = xs.length + 1 - m := by simp
  rw [h1]
  have h2 : xs.length + 1 - m - xs.length = 0 := by omega
  rw [h2, List.drop_zero]

/-- A bounded-deque append with a positive bound is nonempty. -/
theorem dqAppend_ne_nil {α : Type} (m : Nat) (xs : List α) (x : α) (hm : 1 ≤ m) :
    dqAppend m xs x ≠ [] := by
  rw [dqAppend_eq m xs x hm]
  simp

/-- A bounded-deque append with a positive bound ends in the new element. -/
theorem dqAppend_getLast? {α : Type} (m : Nat) (xs : List α) (x : α) (hm : 1 ≤ m) :
    (dqAppend m xs x).getLast? = some x := by
  rw [dqAppend_eq m xs x hm]
  cases h : xs.drop (xs.length + 1 - m) with
  | nil => simp
  | cons y t => rw [List.getLast?_append_cons]; simp

/-- Claim C9: across two consecutive tunable blocks whose matched scale
degrees differ, processing the second block leaves `note_buf` and
`error_buf` with exactly one element each — the new note and its raw
error — and the smoothed error equals that single raw error (on the
estimator state and on the block alike). -/
theorem intonation_note_change_resets_history (cents : List ℚ) (s : IntonState)
    (raw1 raw2 : ℚ) (hh : 1 ≤ s.histlen)
    (hne : (matchNote cents (wrap1200 raw2)).1 ≠ (matchNote cents (wrap1200 raw1)).1) :
    (IntonationEstimator.process cents
        (IntonationEstimator.process cents s true raw1).1 true raw2).1.note_buf
      = [((matchNote cents (wrap1200 raw2)).1 : Int)] ∧
    (IntonationEstimator.process cents
        (IntonationEstimator.process cents s true raw1).1 true raw2).1.error_buf
      = [(matchNote cents (wrap1200 raw2)).2] ∧
    (IntonationEstimator.process cents
        (IntonationEstimator.process cents s true raw1).1 true raw2).1.note_buf.length
      = 1 ∧
    (IntonationEstimator.process cents
        (IntonationEstimator.process cents s true raw1).1 true raw2).1.error_buf.length
      = 1 ∧
    (IntonationEstimator.process cents
        (IntonationEstimator.process cents s true raw1).1 true raw2).1.error_adj
      = (matchNote cents (wrap1200 raw2)).2 ∧
    (IntonationEstimator.process cents
        (IntonationEstimator.process cents s true raw1).1 true raw2).2.error_adj
      = (matchNote cents (wrap1200 raw2)).2 := by
  have h1nb : (IntonationEstimator.process cents s true raw1).1.note_buf
      = dqAppend s.histlen
          (if s.note_buf ≠ [] ∧
              s.note_buf.getLast? ≠ some ((matchNote cents (wrap1200 raw1)).1 : Int)
            then [] else s.note_buf)
          ((matchNote cents (wrap1200 raw1)).1 : Int) := by
    simp [IntonationEstimator.process]
  have h1h : (IntonationEstimator.process cents s true raw1).1.histlen = s.histlen := by
    simp [IntonationEstimator.process]
  have hcond : (IntonationEstimator.process cents s true raw1).1.note_buf ≠ [] ∧
      (IntonationEstimator.process cents s true raw1).1.note_buf.getLast?
        ≠ some ((matchNote cents (wrap1200 raw2)).1 : Int) := by
    constructor
    · rw [h1nb]
      exact dqAppend_ne_nil _ _ _ hh
    · rw [h1nb, dqAppend_getLast? _ _ _ hh]
      simp
      exact fun h => hne (by exact_mod_cast h.symm)
  generalize hs1 : (IntonationEstimator.process cents s true raw1).1 = s1 at *
  simp only [IntonationEstimator.process, not_true, Bool.not_eq_true]
  rw [if_neg (by simp)]
  simp only [if_pos hcond, h1h]
  refine ⟨?_, ?_, ?_, ?_, ?_, ?_⟩ <;> simp [dqAppend_eq _ _ _ hh]

/-- Witness for `intonation_note_change_resets_history`: with the scale
`[0¢, 100¢, 200¢]`, a first tunable block matching degree 1 (95¢) and a
second matching degree 2 (210¢) leave singleton histories whose smoothed
error equals the raw error 10¢. -/
theorem intonation_note_change_resets_history_witness :
    1 ≤ (⟨0, [], 0, [], 0, [], 20⟩ : IntonState).histlen ∧
    (IntonationEstimator.process [0, 100, 200]
        (IntonationEstimator.process [0, 100, 200]
          ⟨0, [], 0, [], 0, [], 20⟩ true 95).1 true 210).1.note_buf
      = [((matchNote [0, 100, 200] (wrap1200 210)).1 : Int)] ∧
    (IntonationEstimator.process [0, 100, 200]
        (IntonationEstimator.process [0, 100, 200]
          ⟨0, [], 0, [], 0, [], 20⟩ true 95).1 true 210).1.note_buf.length = 1 ∧
    (IntonationEstimator.process [0, 100, 200]
        (IntonationEstimator.process [0, 100, 200]
          ⟨0, [], 0, [], 0, [], 20⟩ true 95).1 true 210).1.error_buf.length = 1 ∧
    (IntonationEstimator.process [0, 100, 200]
        (IntonationEstimator.process [0, 100, 200]
          ⟨0, [], 0, [], 0, [], 20⟩ true 95).1 true 210).1.error_adj
      = (matchNote [0, 100, 200] (wrap1200 210)).2 :=
  have h := intonation_note_change_resets_history [0, 100, 200]
    ⟨0, [], 0, [], 0, [], 20⟩ 95 210 (by decide)
    (by
      have h1 : wrap1200 (210 : ℚ) = 210 := by norm_num [wrap1200]
      have h2 : wrap1200 (95 : ℚ) = 95 := by norm_num [wrap1200]
      rw [h1, h2]
      norm_num [matchNote, argminAbsDist, argminIdx, argminIdxAux])
  ⟨by decide, h.1, h.2.2.1, h.2.2.2.1, h.2.2.2.2.1⟩

/-! ## PitchEstimator: C4 -/

/-- Claim C4: in the no-onset state, `select_lag_0` marks the block tunable
exactly when some candidate minimum scores strictly below `onset_thresh`;
when it does, the estimator transitions to onset-active with the chosen lag
as reference lag and the block's timestamp as onset timestamp.  With the
class defaults, `onset_thresh` is stricter than `min_thresh`. -/
theorem pitch_onset_requires_strict_onset_thresh (p : PEParams) (s : PEState)
    (dn : List ℚ) (peaks : List Nat) (b : PBlock)
    (hflag : s.onset_flag = false) (hb : b.tunable = false) :
    ((select_lag_0 p s dn peaks b).2.tunable = true ↔
      ∃ ix ∈ find_minima p dn peaks (some p.min_thresh),
        dn.getD ix 0 < p.onset_thresh) ∧
    ((select_lag_0 p s dn peaks b).2.tunable = true →
      (select_lag_0 p s dn peaks b).1.onset_flag = true ∧
      (select_lag_0 p s dn peaks b).1.onset_ix
        = (select_lag_0 p s dn peaks b).2.ix_best ∧
      (select_lag_0 p s dn peaks b).1.onset_t = b.timestamp) ∧
    PEParams.default.onset_thresh < PEParams.default.min_thresh := by
  refine ⟨?_, ?_, by norm_num [PEParams.default]⟩ <;>
  · unfold select_lag_0
    by_cases hix : find_minima p dn peaks (some p.min_thresh) = []
    · simp [hix, hflag, hb, List.filter_eq_nil_iff]
    · cases hsub : (find_minima p dn peaks (some p.min_thresh)).filter
          (fun ix => decide (dn.getD ix 0 < p.onset_thresh)) with
      | nil =>
        simp only [if_neg hix, hflag, Bool.false_eq_true, if_false, hsub]
        have h0 := List.filter_eq_nil_iff.1 hsub
        simp [hb]
        all_goals
          intro ix hmem
          simpa using h0 ix hmem
      | cons ix t =>
        simp only [if_neg hix, hflag, Bool.false_eq_true, if_false, hsub]
        have hmem : ix ∈ (find_minima p dn peaks (some p.min_thresh)).filter
            (fun ix => decide (dn.getD ix 0 < p.onset_thresh)) := by
          rw [hsub]; exact List.mem_cons_self ix t
        rw [List.mem_filter] at hmem
        simp [PEState.onset]
        all_goals exact ⟨ix, hmem.1, by simpa using hmem.2⟩

/-- Witness for `pitch_onset_requires_strict_onset_thresh`: default
parameters, empty onset state, and a single candidate at lag 50 scoring
0.1. -/
theorem pitch_onset_requires_strict_onset_thresh_witness :
    ((select_lag_0 PEParams.default ⟨false, 0, 0, 0, [], [], []⟩
        ((List.range 101).map (fun i => if i = 50 then (1/10 : ℚ) else 1))
        [50] ⟨3, false, 0⟩).2.tunable = true ↔
      ∃ ix ∈ find_minima PEParams.default
          ((List.range 101).map (fun i => if i = 50 then (1/10 : ℚ) else 1))
          [50] (some PEParams.default.min_thresh),
        ((List.range 101).map (fun i => if i = 50 then (1/10 : ℚ) else 1)).getD ix 0
          < PEParams.default.onset_thresh) ∧
    ((select_lag_0 PEParams.default ⟨false, 0, 0, 0, [], [], []⟩
        ((List.range 101).map (fun i => if i = 50 then (1/10 : ℚ) else 1))
        [50] ⟨3, false, 0⟩).2.tunable = true →
      (select_lag_0 PEParams.default ⟨false, 0, 0, 0, [], [], []⟩
        ((List.range 101).map (fun i => if i = 50 then (1/10 : ℚ) else 1))
        [50] ⟨3, false, 0⟩).1.onset_flag = true ∧
      (select_lag_0 PEParams.default ⟨false, 0, 0, 0, [], [], []⟩
        ((List.range 101).map (fun i => if i = 50 then (1/10 : ℚ) else 1))
        [50] ⟨3, false, 0⟩).1.onset_ix
        = (select_lag_0 PEParams.default ⟨false, 0, 0, 0, [], [], []⟩
        ((List.range 101).map (fun i => if i = 50 then (1/10 : ℚ) else 1))
        [50] ⟨3, false, 0⟩).2.ix_best ∧
      (select_lag_0 PEParams.default ⟨false, 0, 0, 0, [], [], []⟩
        ((List.range 101).map (fun i => if i = 50 then (1/10 : ℚ) else 1))
        [50] ⟨3, false, 0⟩).1.onset_t = (⟨3, false, 0⟩ : PBlock).timestamp) ∧
    PEParams.default.onset_thresh < PEParams.default.min_thresh :=
  pitch_onset_requires_strict_onset_thresh PEParams.default
    ⟨false, 0, 0, 0, [], [], []⟩
    ((List.range 101).map (fun i => if i = 50 then (1/10 : ℚ) else 1))
    [50] ⟨3, false, 0⟩ rfl rfl

/-! ## PitchEstimator: C10 -/

/-- Claim C10: in the onset-active state, when the best candidate is a
harmonic match of the reference lag but the candidate nearest the reference
does not score below `offset_thresh_2`, `select_lag_0` calls `offset`
(clearing all histories, leaving onset-active, recording the offset
timestamp) yet still marks the block tunable with the raw best candidate
lag, and then falls through into the no-onset branch of the same call:
if some candidate scores strictly below `onset_thresh`, onset is
immediately re-declared on this very block with that candidate. -/
theorem pitch_harmonic_decayed_reference_falls_through (p : PEParams)
    (s : PEState) (dn : List ℚ) (peaks : List Nat) (b : PBlock)
    (r : PEState × PBlock)
    (hflag : s.onset_flag = true) (_hb : b.tunable = false)
    (hne : find_minima p dn peaks (some p.min_thresh) ≠ [])
    (hharm : isHarmonic (yinBest p dn (find_minima p dn peaks (some p.min_thresh)))
        s.onset_ix = true)
    (hdecay : ¬ dn.getD (nearRef s.onset_ix
        (find_minima p dn peaks (some p.min_thresh))) 0 < p.offset_thresh_2)
    (hr : select_lag_0 p s dn peaks b = r) :
    r.2.tunable = true ∧
    r.1.hist_ix = [] ∧ r.1.hist_score = [] ∧ r.1.hist_pitch = [] ∧
    ((find_minima p dn peaks (some p.min_thresh)).filter
        (fun ix => decide (dn.getD ix 0 < p.onset_thresh)) = [] →
      r.1.onset_flag = false ∧ r.1.offset_t = b.timestamp ∧
      r.2.ix_best = yinBest p dn (find_minima p dn peaks (some p.min_thresh))) ∧
    (∀ ix t', (find_minima p dn peaks (some p.min_thresh)).filter
        (fun ix => decide (dn.getD ix 0 < p.onset_thresh)) = ix :: t' →
      r.1.onset_flag = true ∧ r.1.onset_ix = ix ∧ r.1.onset_t = b.timestamp ∧
      r.2.ix_best = ix) := by
  subst hr
  unfold select_lag_0
  rw [if_neg hne, if_pos hflag, if_pos hharm, if_neg hdecay]
  simp only [PEState.offset, PEState.onset]
  cases hsub : (find_minima p dn peaks (some p.min_thresh)).filter
      (fun ix => decide (dn.getD ix 0 < p.onset_thresh)) with
  | nil => simp [hsub]
  | cons ix t => simp [hsub]

/-- Witness for `pitch_harmonic_decayed_reference_falls_through`: reference
lag 10 with candidates at lags 9 (score 4, not below `offset_thresh_2 = 4`)
and 20 (score 0): lag 20 is a harmonic of lag 10, the near-reference
candidate 9 has decayed, and lag 20 scores below `onset_thresh = 2`, so the
call offsets and immediately re-declares onset at lag 20. -/
theorem pitch_harmonic_decayed_reference_falls_through_witness :
    (select_lag_0 ⟨5, 1, 2, 4, 1, 100⟩
        ⟨true, 10, 0, 0, [10], [1], [100]⟩
        ((List.range 21).map (fun i => if i = 9 then (4 : ℚ) else if i = 20 then 0 else 7))
        [9, 20] ⟨7, false, 0⟩).2.tunable = true ∧
    (select_lag_0 ⟨5, 1, 2, 4, 1, 100⟩
        ⟨true, 10, 0, 0, [10], [1], [100]⟩
        ((List.range 21).map (fun i => if i = 9 then (4 : ℚ) else if i = 20 then 0 else 7))
        [9, 20] ⟨7, false, 0⟩).1.hist_ix = [] ∧
    (select_lag_0 ⟨5, 1, 2, 4, 1, 100⟩
        ⟨true, 10, 0, 0, [10], [1], [100]⟩
        ((List.range 21).map (fun i => if i = 9 then (4 : ℚ) else if i = 20 then 0 else 7))
        [9, 20] ⟨7, false, 0⟩).1.hist_score = [] ∧
    (select_lag_0 ⟨5, 1, 2, 4, 1, 100⟩
        ⟨true, 10, 0, 0, [10], [1], [100]⟩
        ((List.range 21).map (fun i => if i = 9 then (4 : ℚ) else if i = 20 then 0 else 7))
        [9, 20] ⟨7, false, 0⟩).1.hist_pitch = [] ∧
    ((((find_minima ⟨5, 1, 2, 4, 1, 100⟩
        ((List.range 21).map (fun i => if i = 9 then (4 : ℚ) else if i = 20 then 0 else 7))
        [9, 20] (some (⟨5, 1, 2, 4, 1, 100⟩ : PEParams).min_thresh)).filter
        (fun ix => decide (((List.range 21).map
          (fun i => if i = 9 then (4 : ℚ) else if i = 20 then 0 else 7)).getD ix 0
            < (⟨5, 1, 2, 4, 1, 100⟩ : PEParams).onset_thresh))) = [] →
      (select_lag_0 ⟨5, 1, 2, 4, 1, 100⟩
        ⟨true, 10, 0, 0, [10], [1], [100]⟩
        ((List.range 21).map (fun i => if i = 9 then (4 : ℚ) else if i = 20 then 0 else 7))
        [9, 20] ⟨7, false, 0⟩).1.onset_flag = false ∧
      (select_lag_0 ⟨5, 1, 2, 4, 1, 100⟩
        ⟨true, 10, 0, 0, [10], [1], [100]⟩
        ((List.range 21).map (fun i => if i = 9 then (4 : ℚ) else if i = 20 then 0 else 7))
        [9, 20] ⟨7, false, 0⟩).1.offset_t = (⟨7, false, 0⟩ : PBlock).timestamp ∧
      (select_lag_0 ⟨5, 1, 2, 4, 1, 100⟩
        ⟨true, 10, 0, 0, [10], [1], [100]⟩
        ((List.range 21).map (fun i => if i = 9 then (4 : ℚ) else if i = 20 then 0 else 7))
        [9, 20] ⟨7, false, 0⟩).2.ix_best
        = yinBest ⟨5, 1, 2, 4, 1, 100⟩
            ((List.range 21).map (fun i => if i = 9 then (4 : ℚ) else if i = 20 then 0 else 7))
            (find_minima ⟨5, 1, 2, 4, 1, 100⟩
              ((List.range 21).map (fun i => if i = 9 then (4 : ℚ) else if i = 20 then 0 else 7))
              [9, 20] (some (⟨5, 1, 2, 4, 1, 100⟩ : PEParams).min_thresh)))) ∧
    (∀ ix t', ((find_minima ⟨5, 1, 2, 4, 1, 100⟩
        ((List.range 21).map (fun i => if i = 9 then (4 : ℚ) else if i = 20 then 0 else 7))
        [9, 20] (some (⟨5, 1, 2, 4, 1, 100⟩ : PEParams).min_thresh)).filter
        (fun ix => decide (((List.range 21).map
          (fun i => if i = 9 then (4 : ℚ) else if i = 20 then 0 else 7)).getD ix 0
            < (⟨5, 1, 2, 4, 1, 100⟩ : PEParams).onset_thresh))) = ix :: t' →
      (select_lag_0 ⟨5, 1, 2, 4, 1, 100⟩
        ⟨true, 10, 0, 0, [10], [1], [100]⟩
        ((List.range 21).map (fun i => if i = 9 then (4 : ℚ) else if i = 20 then 0 else 7))
        [9, 20] ⟨7, false, 0⟩).1.onset_flag = true ∧
      (select_lag_0 ⟨5, 1, 2, 4, 1, 100⟩
        ⟨true, 10, 0, 0, [10], [1], [100]⟩
        ((List.range 21).map (fun i => if i = 9 then (4 : ℚ) else if i = 20 then 0 else 7))
        [9, 20] ⟨7, false, 0⟩).1.onset_ix = ix ∧
      (select_lag_0 ⟨5, 1, 2, 4, 1, 100⟩
        ⟨true, 10, 0, 0, [10], [1], [100]⟩
        ((List.range 21).map (fun i => if i = 9 then (4 : ℚ) else if i = 20 then 0 else 7))
        [9, 20] ⟨7, false, 0⟩).1.onset_t = (⟨7, false, 0⟩ : PBlock).timestamp ∧
      (select_lag_0 ⟨5, 1, 2, 4, 1, 100⟩
        ⟨true, 10, 0, 0, [10], [1], [100]⟩
        ((List.range 21).map (fun i => if i = 9 then (4 : ℚ) else if i = 20 then 0 else 7))
        [9, 20] ⟨7, false, 0⟩).2.ix_best = ix) :=
  pitch_harmonic_decayed_reference_falls_through ⟨5, 1, 2, 4, 1, 100⟩
    ⟨true, 10, 0, 0, [10], [1], [100]⟩
    ((List.range 21).map (fun i => if i = 9 then (4 : ℚ) else if i = 20 then 0 else 7))
    [9, 20] ⟨7, false, 0⟩ _ rfl rfl (by decide) (by decide) (by decide) rfl


/-! ## CircularBuffer: C1 -/

theorem setSlice_length {α : Type} (arr blk : List α) (i : Nat)
    (h : i + blk.length ≤ arr.length) :
    (setSlice arr i blk).length = arr.length := by
  simp [setSlice]
  omega

theorem rot_drop {α : Type} (arr : List α) (h bl : Nat)
    (hh : h ≤ arr.length) (hbl : bl ≤ arr.length - h) :
    (arr.drop h ++ arr.take h).drop bl = arr.drop (h + bl) ++ arr.take h := by
  rw [List.drop_append_eq_append_drop, List.length_drop]
  have h2 : bl - (arr.length - h) = 0 := by omega
  rw [h2, List.drop_zero, List.drop_drop]

theorem models_mkBuf {α : Type} (cap : Nat) (fill : Option α) (zero : α) :
    Models (CircularBuffer.mkBuf cap fill zero) cap (fill.getD zero) [] := by
  refine ⟨?_, ?_, ?_, ?_, ?_⟩ <;>
    simp [CircularBuffer.mkBuf]


theorem take_eq_rot_drop {α : Type} (arr : List α) (h : Nat) (hh : h ≤ arr.length) :
    arr.take h = (arr.drop h ++ arr.take h).drop (arr.length - h) := by
  rw [List.drop_append_eq_append_drop, List.length_drop, Nat.sub_self, List.drop_zero,
    List.drop_drop, List.drop_of_length_le (by omega), List.nil_append]

theorem models_writeRaw {α : Type} {cb : CircularBuffer α} {cap : Nat} {p : α}
    {ws : List α} (M : Models cb cap p ws) (b : List α) :
    Models (cb.writeRaw b) cap p (ws ++ b) := by
  have hlen : cb.arr.length = cap := M.len_eq
  have hhead : cb.head ≤ cap := M.head_le
  simp only [CircularBuffer.writeRaw]
  split_ifs with h1 h2 h3
  -- Branch 1: blocklen ≥ maxlen
  · refine ⟨?_, ?_, ?_, ?_, ?_⟩ <;> dsimp only
    · simp only [List.length_drop]
      omega
    · exact Nat.zero_le cap
    · intro _
      omega
    · intro h
      simp at h
    · intro _
      refine ⟨by simp only [List.length_append]; omega, ?_⟩
      have hr : List.drop ((ws ++ b).length - cap) (ws ++ b)
          = List.drop (b.length - cb.arr.length) b := by
        rw [List.drop_append_eq_append_drop]
        rw [List.drop_of_length_le (show ws.length ≤ (ws ++ b).length - cap by
          simp only [List.length_append]; omega)]
        rw [List.nil_append]
        congr 1
        simp only [List.length_append]
        omega
      rw [List.drop_zero, List.take_zero, List.append_nil, hr]
  -- Branch 2a: fits exactly, head resets to 0, buffer full
  · have hbl : b.length < cap := by omega
    have hfit : cb.head + b.length ≤ cb.arr.length := by omega
    refine ⟨?_, ?_, ?_, ?_, ?_⟩ <;> dsimp only
    · rw [setSlice_length cb.arr b cb.head hfit]
      exact hlen
    · exact Nat.zero_le cap
    · intro _
      omega
    · intro h
      simp at h
    · intro _
      have harr : setSlice cb.arr cb.head b = cb.arr.take cb.head ++ b := by
        unfold setSlice
        rw [h3, List.drop_length, List.append_nil]
      constructor
      · cases hf : cb.full with
        | true =>
          have := (M.full_content hf).1
          simp only [List.length_append]
          omega
        | false =>
          have := (M.part hf).1
          simp only [List.length_append]
          omega
      · rw [List.drop_zero, List.take_zero, List.append_nil, harr]
        cases hf : cb.full with
        | false =>
          obtain ⟨hL, harr2, _⟩ := M.part hf
          have hidx : (ws ++ b).length - cap = 0 := by
            simp only [List.length_append]
            omega
          rw [hidx, List.drop_zero, harr2, ← hL]
          rw [List.take_left' (by simp [hL])]
        | true =>
          obtain ⟨hcap, hrot⟩ := M.full_content hf
          have htake : cb.arr.take cb.head = ws.drop (ws.length - cap + (cap - cb.head)) := by
            rw [take_eq_rot_drop cb.arr cb.head (by omega), hrot, List.drop_drop, hlen]
          rw [htake]
          rw [List.drop_append_eq_append_drop]
          have hidx2 : (ws ++ b).length - cap - ws.length = 0 := by
            simp only [List.length_append]
            omega
          rw [hidx2, List.drop_zero]
          have hidx3 : ws.length - cap + (cap - cb.head) = (ws ++ b).length - cap := by
            simp only [List.length_append]
            omega
          rw [hidx3]
  -- Branch 2b: fits with room to spare
  · have hfit : cb.head + b.length ≤ cb.arr.length := by omega
    refine ⟨?_, ?_, ?_, ?_, ?_⟩ <;> dsimp only
    · rw [setSlice_length cb.arr b cb.head hfit]
      exact hlen
    · omega
    · intro hf
      rcases M.full_lt hf with h | h
      · left; omega
      · right; exact h
    · intro hf
      obtain ⟨hL, harr2, hlt⟩ := M.part hf
      refine ⟨by simp only [List.length_append]; omega, ?_, by omega⟩
      unfold setSlice
      rw [harr2, List.take_left' hL.symm]
      rw [List.drop_append_eq_append_drop]
      rw [List.drop_of_length_le (show ws.length ≤ cb.head + b.length by omega)]
      rw [List.nil_append, List.drop_replicate]
      have hc : cap - ws.length - (cb.head + b.length - ws.length)
          = cap - (ws ++ b).length := by
        simp only [List.length_append]
        omega
      rw [hc, List.append_assoc]
    · intro hf
      obtain ⟨hcap, hrot⟩ := M.full_content hf
      refine ⟨by simp only [List.length_append]; omega, ?_⟩
      have hA : setSlice cb.arr cb.head b
          = (cb.arr.take cb.head ++ b) ++ cb.arr.drop (cb.head + b.length) := by
        unfold setSlice
        rw [List.append_assoc]
      have hlen2 : (cb.arr.take cb.head ++ b).length = cb.head + b.length := by
        simp only [List.length_append, List.length_take]
        omega
      rw [hA, List.drop_left' hlen2, List.take_left' hlen2]
      have hmid : cb.arr.drop (cb.head + b.length) ++ (cb.arr.take cb.head ++ b)
          = (cb.arr.drop (cb.head + b.length) ++ cb.arr.take cb.head) ++ b := by
        rw [List.append_assoc]
      rw [hmid, ← rot_drop cb.arr cb.head b.length (by omega) (by omega), hrot,
        List.drop_drop]
      rw [List.drop_append_eq_append_drop]
      have hi1 : (ws ++ b).length - cap - ws.length = 0 := by
        simp only [List.length_append]
        omega
      rw [hi1, List.drop_zero]
      have hi2 : ws.length - cap + b.length = (ws ++ b).length - cap := by
        simp only [List.length_append]
        omega
      rw [hi2]
  -- Branch 3: wrap-around
  · have hblcap : b.length < cap := by omega
    have hcappos : 0 < cap := by omega
    have hlt : cb.head < cap := by
      cases hf : cb.full with
      | true =>
        rcases M.full_lt hf with h | h
        · exact h
        · omega
      | false =>
        rcases (M.part hf).2.2 with h | h
        · exact h
        · omega
    have hfree : cb.arr.length - cb.head = cap - cb.head := by omega
    have hfreelt : cap - cb.head < b.length := by omega
    have htfree : (b.take (cb.arr.length - cb.head)).length = cb.arr.length - cb.head := by
      simp only [List.length_take]
      omega
    have hT : (b.drop (cb.arr.length - cb.head)).take (b.length - (cb.arr.length - cb.head))
        = b.drop (cb.arr.length - cb.head) := by
      apply List.take_of_length_le
      simp only [List.length_drop]
      omega
    have hTlen : (b.drop (cb.arr.length - cb.head)).length
        = b.length - (cb.arr.length - cb.head) := by
      simp only [List.length_drop]
    have hA1 : setSlice cb.arr cb.head (b.take (cb.arr.length - cb.head))
        = cb.arr.take cb.head ++ b.take (cb.arr.length - cb.head) := by
      unfold setSlice
      rw [htfree]
      have h9 : cb.head + (cb.arr.length - cb.head) = cb.arr.length := by omega
      rw [h9, List.drop_length, List.append_nil]
    have hA1len : (cb.arr.take cb.head ++ b.take (cb.arr.length - cb.head)).length
        = cb.arr.length := by
      simp only [List.length_append, List.length_take]
      omega
    have houter : setSlice (setSlice cb.arr cb.head (b.take (cb.arr.length - cb.head))) 0
          ((b.drop (cb.arr.length - cb.head)).take (b.length - (cb.arr.length - cb.head)))
        = b.drop (cb.arr.length - cb.head)
          ++ (cb.arr.take cb.head ++ b.take (cb.arr.length - cb.head)).drop
              (b.length - (cb.arr.length - cb.head)) := by
      rw [hA1, hT]
      unfold setSlice
      rw [List.take_zero, List.nil_append, Nat.zero_add, hTlen]
    have hdropA1 : (cb.arr.take cb.head ++ b.take (cb.arr.length - cb.head)).drop
          (b.length - (cb.arr.length - cb.head))
        = (cb.arr.take cb.head).drop (b.length - (cb.arr.length - cb.head))
          ++ b.take (cb.arr.length - cb.head) := by
      rw [List.drop_append_eq_append_drop]
      have h10 : b.length - (cb.arr.length - cb.head) - (cb.arr.take cb.head).length = 0 := by
        simp only [List.length_take]
        omega
      rw [h10, List.drop_zero]
    refine ⟨?_, ?_, ?_, ?_, ?_⟩ <;> dsimp only
    · rw [houter, hdropA1]
      simp only [List.length_append, List.length_drop, List.length_take]
      omega
    · omega
    · intro _
      left
      omega
    · intro h
      simp at h
    · intro _
      constructor
      · cases hf : cb.full with
        | true =>
          have := (M.full_content hf).1
          simp only [List.length_append]
          omega
        | false =>
          have := (M.part hf).1
          simp only [List.length_append]
          omega
      · rw [houter, hdropA1]
        rw [List.drop_left' (by rw [hTlen])]
        rw [List.take_left' (by rw [hTlen])]
        have hassoc : (cb.arr.take cb.head).drop (b.length - (cb.arr.length - cb.head))
              ++ b.take (cb.arr.length - cb.head) ++ b.drop (cb.arr.length - cb.head)
            = (cb.arr.take cb.head).drop (b.length - (cb.arr.length - cb.head)) ++ b := by
          rw [List.append_assoc, List.take_append_drop]
        rw [hassoc, hlen]
        cases hf : cb.full with
        | false =>
          obtain ⟨hL, harr2, _⟩ := M.part hf
          have htakews : cb.arr.take cb.head = ws := by
            rw [harr2, List.take_left' hL.symm]
          rw [htakews]
          rw [List.drop_append_eq_append_drop]
          have hi1 : (ws ++ b).length - cap - ws.length = 0 := by
            simp only [List.length_append]
            omega
          rw [hi1, List.drop_zero]
          have hi2 : b.length - (cap - cb.head) = (ws ++ b).length - cap := by
            simp only [List.length_append]
            omega
          rw [hi2]
        | true =>
          obtain ⟨hcap, hrot⟩ := M.full_content hf
          have htake : cb.arr.take cb.head
              = ws.drop (ws.length - cap + (cap - cb.head)) := by
            rw [take_eq_rot_drop cb.arr cb.head (by omega), hrot, List.drop_drop, hlen]
          rw [htake, List.drop_drop]
          rw [List.drop_append_eq_append_drop]
          have hi1 : (ws ++ b).length - cap - ws.length = 0 := by
            simp only [List.length_append]
            omega
          rw [hi1, List.drop_zero]
          have hi2 : ws.length - cap + (cap - cb.head) + (b.length - (cap - cb.head))
              = (ws ++ b).length - cap := by
            simp only [List.length_append]
            omega
          rw [hi2]


theorem models_write {α : Type} {cb : CircularBuffer α} {cap : Nat} {p : α}
    {ws : List α} (M : Models cb cap p ws) (b : List α) :
    Models (cb.write b) cap p (ws ++ b) := by
  have h := models_writeRaw M b
  exact ⟨h.len_eq, h.head_le, h.full_lt, h.part, h.full_content⟩

theorem models_writeList {α : Type} {cap : Nat} {p : α} :
    ∀ (bs : List (List α)) (cb : CircularBuffer α) (ws : List α),
      Models cb cap p ws → Models (cb.writeList bs) cap p (ws ++ bs.flatten)
  | [], cb, ws, M => by simpa [CircularBuffer.writeList] using M
  | b :: bs, cb, ws, M => by
    have h2 := models_writeList bs (cb.write b) (ws ++ b) (models_write M b)
    rw [List.append_assoc] at h2
    exact h2

theorem writeList_cached {α : Type} :
    ∀ (bs : List (List α)) (cb : CircularBuffer α), cb.cached = none →
      (cb.writeList bs).cached = none
  | [], _, h => h
  | _ :: bs, cb, _ => writeList_cached bs (cb.write _) rfl

/-- Claim C1: for any capacity and any sequence of writes whose total
length is at least the capacity, a subsequent `read` returns exactly
`cap` rows, and those rows are the last `cap` elements of the
concatenation of all writes, oldest first. -/
theorem circular_buffer_read_is_write_tail {α : Type} (cap : Nat)
    (fill : Option α) (zero : α) (bs : List (List α))
    (h : cap ≤ bs.flatten.length) :
    ((CircularBuffer.mkBuf cap fill zero).writeList bs).read.1.length = cap ∧
    ((CircularBuffer.mkBuf cap fill zero).writeList bs).read.1
      = bs.flatten.drop (bs.flatten.length - cap) := by
  have M := models_writeList bs (CircularBuffer.mkBuf cap fill zero) []
    (models_mkBuf cap fill zero)
  rw [List.nil_append] at M
  have hc := writeList_cached bs (CircularBuffer.mkBuf cap fill zero) rfl
  have hread : ((CircularBuffer.mkBuf cap fill zero).writeList bs).read.1
      = ((CircularBuffer.mkBuf cap fill zero).writeList bs).readRaw := by
    simp [CircularBuffer.read, hc]
  have hcontent : ((CircularBuffer.mkBuf cap fill zero).writeList bs).readRaw
      = bs.flatten.drop (bs.flatten.length - cap) := by
    unfold CircularBuffer.readRaw
    cases hf : ((CircularBuffer.mkBuf cap fill zero).writeList bs).full with
    | true =>
      obtain ⟨hcap, hrot⟩ := M.full_content hf
      rw [if_pos rfl]
      by_cases h0 : ((CircularBuffer.mkBuf cap fill zero).writeList bs).head = 0
      · rw [if_pos h0]
        rw [h0, List.drop_zero, List.take_zero, List.append_nil] at hrot
        exact hrot
      · rw [if_neg h0]
        exact hrot
    | false =>
      obtain ⟨hL, harr, hor⟩ := M.part hf
      have hhead := M.head_le
      have hcap0 : cap = 0 := by
        rcases hor with hlt | h0
        · omega
        · omega
      have hws : bs.flatten.length = 0 := by omega
      have hwsnil : bs.flatten = [] := List.eq_nil_of_length_eq_zero hws
      have harrnil : ((CircularBuffer.mkBuf cap fill zero).writeList bs).arr = [] := by
        apply List.eq_nil_of_length_eq_zero
        rw [M.len_eq, hcap0]
      rw [if_neg (by simp [hf])]
      cases hfill : ((CircularBuffer.mkBuf cap fill zero).writeList bs).fill with
      | none => simp [harrnil, hwsnil]
      | some v => simp [harrnil, hwsnil]
  refine ⟨?_, by rw [hread, hcontent]⟩
  rw [hread, hcontent, List.length_drop]
  omega

/-- Witness for `circular_buffer_read_is_write_tail`: the spec example —
capacity 5, writes `[0,1,2]` then `[3,4,5,6]` yield
`read() = [2,3,4,5,6]`. -/
theorem circular_buffer_read_is_write_tail_witness :
    ((CircularBuffer.mkBuf 5 (none : Option ℤ) 0).writeList
        [[0,1,2],[3,4,5,6]]).read.1.length = 5 ∧
    ((CircularBuffer.mkBuf 5 (none : Option ℤ) 0).writeList
        [[0,1,2],[3,4,5,6]]).read.1
      = ([[0,1,2],[3,4,5,6]] : List (List ℤ)).flatten.drop
          (([[0,1,2],[3,4,5,6]] : List (List ℤ)).flatten.length - 5) :=
  circular_buffer_read_is_write_tail 5 (none : Option ℤ) 0 [[0,1,2],[3,4,5,6]]
    (by decide)

end Microtune
